import Mathlib

/-!
Verification of the case-convention renaming core of rename.py.

The embedding models the pure string-processing core of the repository:
case classification (detect_case_type), conversion through the kebab-case
pivot (to_kebab_case, to_camel_case, to_pascal_case, to_snake_case,
convert_string), variation generation (generate_all_case_variations) and
the two substitution policies (replace_text_in_filename and the content
replacement loop of replace_in_files).

Modelling conventions, all taken from the Python source:
- Strings are Lean String values; the functions operate on the underlying
  List Char.
- Python's str.lower / str.upper / str.capitalize only matter here on the
  ASCII range (the regexes of the source are ASCII classes), so character
  case conversion is modelled by Char.toLower / Char.toUpper, which are
  ASCII-only by definition.
- Python's str.replace(old, new) replaces all non-overlapping occurrences
  left to right; when old is empty it inserts new before every character
  and at the end.  pyReplace below implements exactly that.
- Python's re.match(r"^P$", s) succeeds iff P matches the entire string,
  or P matches the string minus one final newline character, because "$"
  also asserts just before a trailing newline.  pyMatchFull models this.
- Python dicts iterate in insertion order, so the variation mapping is a
  structure whose fixed traversal order is given by variationPairs.
-/

/-- Python single-character str.replace: s.replace(a, b) for one-character
a and b, used by to_kebab_case for underscore/space and by to_snake_case
for hyphen/underscore. -/
def replaceChar (a b : Char) (l : List Char) : List Char :=
  l.map fun c => if c = a then b else c

/-- Tail of the model of re.sub(r"(?<!^)(?=[A-Z])", "-", s): from the
second character on, a hyphen is inserted before every ASCII uppercase
letter. -/
def insertHyphensAux : List Char → List Char
  | [] => []
  | c :: rest => (if 'A' ≤ c ∧ c ≤ 'Z' then ['-', c] else [c]) ++ insertHyphensAux rest

/-- Model of re.sub(r"(?<!^)(?=[A-Z])", "-", s) from to_kebab_case line 91:
insert a hyphen before every uppercase letter that is not the first
character of the string. -/
def insertHyphens : List Char → List Char
  | [] => []
  | c :: rest => c :: insertHyphensAux rest

/-- Model of re.sub(r"-+", "-", s) from to_kebab_case line 94: collapse
every run of consecutive hyphens to a single hyphen. -/
def collapseHyphens : List Char → List Char
  | [] => []
  | [c] => [c]
  | a :: b :: rest =>
    if a = '-' ∧ b = '-' then collapseHyphens (b :: rest)
    else a :: collapseHyphens (b :: rest)

/-- Model of Python str.lower restricted to ASCII (the only case-bearing
characters the source's regexes recognise). -/
def toLowerL (l : List Char) : List Char := l.map Char.toLower

/-- to_kebab_case from rename.py lines 73-96: replace underscores and
spaces by hyphens, insert hyphens before non-initial uppercase letters,
lowercase everything, then collapse hyphen runs. -/
def to_kebab_case (s : String) : String :=
  ⟨collapseHyphens (toLowerL (insertHyphens (replaceChar ' ' '-' (replaceChar '_' '-' s.data))))⟩

/-- Python str.capitalize: first character uppercased (titlecased), all
remaining characters lowercased. -/
def capitalizeL : List Char → List Char
  | [] => []
  | c :: rest => Char.toUpper c :: toLowerL rest

/-- to_pascal_case from rename.py line 41: split the kebab string on
hyphens and concatenate the capitalized words. -/
def to_pascal_case (s : String) : String :=
  ⟨((s.data.splitOn '-').map capitalizeL).flatten⟩

/-- to_camel_case from rename.py lines 53-54: split on hyphens, lowercase
the first part, capitalize and append the remaining parts.  Python's
split always returns a nonempty list, so the [] branch is unreachable. -/
def to_camel_case (s : String) : String :=
  match s.data.splitOn '-' with
  | [] => ""
  | p :: ps => ⟨toLowerL p ++ (ps.map capitalizeL).flatten⟩

/-- to_snake_case from rename.py line 70: replace every hyphen with an
underscore. -/
def to_snake_case (s : String) : String :=
  ⟨replaceChar '-' '_' s.data⟩

/-- Character class [a-z0-9] of the snake_case and kebab-case regexes. -/
def isLowerDigit (c : Char) : Bool :=
  ('a' ≤ c && c ≤ 'z') || ('0' ≤ c && c ≤ '9')

/-- Character class [a-zA-Z0-9] of the camelCase and PascalCase regexes. -/
def isAlnumAscii (c : Char) : Bool :=
  ('a' ≤ c && c ≤ 'z') || ('A' ≤ c && c ≤ 'Z') || ('0' ≤ c && c ≤ '9')

/-- Body of the regex [a-z0-9]+(?:_[a-z0-9]+)* as an entire-string match:
the string splits on underscores into nonempty groups of lowercase
letters and digits. -/
def snakeBody (l : List Char) : Bool :=
  (l.splitOn '_').all fun g => !g.isEmpty && g.all isLowerDigit

/-- Body of the regex [a-z0-9]+(?:-[a-z0-9]+)* as an entire-string match. -/
def kebabBody (l : List Char) : Bool :=
  (l.splitOn '-').all fun g => !g.isEmpty && g.all isLowerDigit

/-- Body of the regex [a-z][a-zA-Z0-9]* as an entire-string match. -/
def camelBody : List Char → Bool
  | [] => false
  | c :: rest => ('a' ≤ c && c ≤ 'z') && rest.all isAlnumAscii

/-- Body of the regex [A-Z][a-zA-Z0-9]* as an entire-string match. -/
def pascalBody : List Char → Bool
  | [] => false
  | c :: rest => ('A' ≤ c && c ≤ 'Z') && rest.all isAlnumAscii

/-- Python re.match on an anchored pattern r"^P$": the dollar anchor also
matches just before one trailing newline, so the pattern accepts the
whole string or the whole string minus a final newline character. -/
def pyMatchFull (body : List Char → Bool) (l : List Char) : Bool :=
  body l || (l.getLast? == some '\n' && body l.dropLast)

/-- detect_case_type from rename.py lines 98-131: try the four anchored
patterns in the fixed dict order snake_case, kebab-case, camelCase,
PascalCase with Python re.match and return the first that succeeds,
falling back to the string "other". -/
def detect_case_type (s : String) : String :=
  if pyMatchFull snakeBody s.data then "snake_case"
  else if pyMatchFull kebabBody s.data then "kebab-case"
  else if pyMatchFull camelBody s.data then "camelCase"
  else if pyMatchFull pascalBody s.data then "PascalCase"
  else "other"

/-- convert_string from rename.py lines 134-160: canonicalize to kebab,
dispatch on the target tag, raising ValueError for unsupported tags.
The raise is modelled by Except.error carrying the message text. -/
def convert_string (s to_case : String) : Except String String :=
  let kebab := to_kebab_case s
  if to_case = "camelCase" then Except.ok (to_camel_case kebab)
  else if to_case = "PascalCase" then Except.ok (to_pascal_case kebab)
  else if to_case = "snake_case" then Except.ok (to_snake_case kebab)
  else if to_case = "kebab-case" then Except.ok kebab
  else if to_case = "other" then Except.ok s
  else Except.error ("Unsupported target case: " ++ to_case)

/-- The five-entry variation mapping returned by
generate_all_case_variations.  Python dicts preserve insertion order; the
declared field order original, camelCase, PascalCase, snake_case,
kebab-case is the iteration order used by the substitution loops and is
materialised by variationPairs below.  The kebab-case key is not a Lean
identifier, so the field is named kebabCase. -/
structure CaseVariations where
  original : String
  camelCase : String
  PascalCase : String
  snake_case : String
  kebabCase : String
deriving Repr, DecidableEq

/-- generate_all_case_variations from rename.py lines 163-185.  The
source calls detect_case_type for validation and discards the result
(it never fails); the let binding mirrors that call. -/
def generate_all_case_variations (text : String) : CaseVariations :=
  let _ := detect_case_type text
  let kebab := to_kebab_case text
  { original := text
    camelCase := to_camel_case kebab
    PascalCase := to_pascal_case kebab
    snake_case := to_snake_case kebab
    kebabCase := kebab }

/-- Iteration of needle_variations.items() paired with the same-keyed
replacement variant, in Python dict insertion order: original, camelCase,
PascalCase, snake_case, kebab-case. -/
def variationPairs (nv rv : CaseVariations) : List (String × String) :=
  [(nv.original, rv.original),
   (nv.camelCase, rv.camelCase),
   (nv.PascalCase, rv.PascalCase),
   (nv.snake_case, rv.snake_case),
   (nv.kebabCase, rv.kebabCase)]

/-- Python substring membership test on character lists: the needle is a
contiguous infix of the haystack.  The empty needle occurs in every
string, as in Python. -/
def occursInL (needle : List Char) : List Char → Bool
  | [] => needle.isEmpty
  | c :: rest => needle.isPrefixOf (c :: rest) || occursInL needle rest

/-- Python substring membership test: needle in hay. -/
def occursIn (needle hay : String) : Bool :=
  occursInL needle.data hay.data

/-- Fuel-driven core of Python str.replace for a nonempty old string:
replace non-overlapping occurrences left to right.  The fuel argument is
instantiated with the length of the subject, which suffices because every
step consumes at least one character. -/
def replaceFuel (old new : List Char) : Nat → List Char → List Char
  | _, [] => []
  | 0, l => l
  | fuel + 1, c :: rest =>
    if old.isPrefixOf (c :: rest) then new ++ replaceFuel old new fuel ((c :: rest).drop old.length)
    else c :: replaceFuel old new fuel rest

/-- Python str.replace(old, new): all non-overlapping occurrences are
replaced left to right; an empty old inserts new before every character
and once at the end. -/
def pyReplace (s old new : String) : String :=
  match old.data with
  | [] => ⟨new.data ++ (s.data.map fun c => c :: new.data).flatten⟩
  | _ :: _ => ⟨replaceFuel old.data new.data s.data.length s.data⟩

/-- The loop of replace_text_in_filename: walk the ordered variation
pairs and, for the first needle variant occurring in the filename, return
the filename with that variant replaced everywhere. -/
def replaceFirstMatch : List (String × String) → String → String
  | [], filename => filename
  | (nvar, rvar) :: rest, filename =>
    if occursIn nvar filename then pyReplace filename nvar rvar
    else replaceFirstMatch rest filename

/-- replace_text_in_filename from rename.py lines 188-203. -/
def replace_text_in_filename (filename : String) (nv rv : CaseVariations) : String :=
  replaceFirstMatch (variationPairs nv rv) filename

/-- The content replacement loop of replace_in_files, rename.py lines
356-359: the occurrence test is made against the original content while
the replacement is applied to the accumulated new content. -/
def contentLoop (content : String) : List (String × String) → String → String
  | [], acc => acc
  | (nvar, rvar) :: rest, acc =>
    contentLoop content rest (if occursIn nvar content then pyReplace acc nvar rvar else acc)

/-- Content substitution of replace_in_files applied to one file content
with both variation mappings. -/
def substituteInContent (content : String) (nv rv : CaseVariations) : String :=
  contentLoop content (variationPairs nv rv) content

/-- Modelled from the spec: the content-substitution algorithm as the
specification words it, where the occurrence test for each key is made
against the possibly already-modified content rather than the original
content.  Used only to compare the specified algorithm with the code. -/
def contentLoopSpec : List (String × String) → String → String
  | [], acc => acc
  | (nvar, rvar) :: rest, acc =>
    contentLoopSpec rest (if occursIn nvar acc then pyReplace acc nvar rvar else acc)

/-- Modelled from the spec: content substitution checking occurrence in
the evolving content, per the specification's wording. -/
def substituteInContentSpec (content : String) (nv rv : CaseVariations) : String :=
  contentLoopSpec (variationPairs nv rv) content

/-- The filename substitution operation as invoked by rename_files,
rename.py lines 223-225 and 265: the empty-needle guard raising
ValueError, then variation generation and replace_text_in_filename.
Python's falsiness test "not needle" is true exactly for the empty
string. -/
def substituteInName (name needle replacement : String) : Except String String :=
  if needle = "" then Except.error "The needle must not be empty or only whitespace."
  else Except.ok (replace_text_in_filename name
    (generate_all_case_variations needle) (generate_all_case_variations replacement))

/-- The content substitution operation as invoked by replace_in_files,
rename.py lines 299-301 and 356-359: the empty-needle guard raising
ValueError, then variation generation and the content loop. -/
def substituteInContentChecked (content needle replacement : String) : Except String String :=
  if needle = "" then Except.error "The needle must not be empty or only whitespace."
  else Except.ok (substituteInContent content
    (generate_all_case_variations needle) (generate_all_case_variations replacement))

/-- Decidable check that a character list has no two adjacent hyphens. -/
def noDouble : List Char → Bool
  | [] => true
  | [_] => true
  | a :: b :: rest => !(a = '-' && b = '-') && noDouble (b :: rest)

/-- Modelled from the spec: step (b) of the four-step kebab algorithm as
the specification words it, written with flatMap instead of the recursion
of insertHyphens so that the equality of the two is a real statement. -/
def specStepB : List Char → List Char
  | [] => []
  | c :: rest => c :: rest.flatMap fun d => if 'A' ≤ d ∧ d ≤ 'Z' then ['-', d] else [d]

/-- Modelled from the spec: step (d) of the four-step kebab algorithm,
collapsing every run of consecutive hyphens into a single hyphen, written
with dropWhile over the rest of a run. -/
def specStepD : List Char → List Char
  | [] => []
  | c :: rest =>
    if c = '-' then '-' :: specStepD (rest.dropWhile fun d => d = '-')
    else c :: specStepD rest
termination_by l => l.length
decreasing_by
  · simp only [List.length_cons]
    have hsub : List.Sublist (rest.dropWhile fun d => decide (d = '-')) rest :=
      List.dropWhile_sublist _
    have := hsub.length_le
    omega
  · simp

/-- Modelled from the spec: the four-step kebab algorithm of the
specification, steps (a) replace underscores and spaces by hyphens,
(b) insert hyphens before non-initial uppercase letters, (c) lowercase,
(d) collapse hyphen runs. -/
def specToKebab (s : String) : String :=
  ⟨specStepD (toLowerL (specStepB (s.data.map fun c => if c = '_' ∨ c = ' ' then '-' else c)))⟩

/-- Token predicate of claim C9: a hyphen-separated token of a kebab
string begins with a (lowercase, since kebab output is lowercased)
letter. -/
def tokenStartsLower : List Char → Bool
  | [] => false
  | c :: _ => 'a' ≤ c && c ≤ 'z'

example : to_kebab_case "ThisIsCamelCase" = "this-is-camel-case" := by decide
example : to_kebab_case "This--Is_Already_Mixed" = "this-is-already-mixed" := by decide
example : to_camel_case "this-is-kebab-case" = "thisIsKebabCase" := by decide
example : to_pascal_case "this-is-1-keb1ab-case-string" = "ThisIs1Keb1abCaseString" := by decide
example : detect_case_type "example" = "snake_case" := by decide
example : detect_case_type "isJSON" = "camelCase" := by decide
example : detect_case_type "XMLHttpRequest" = "PascalCase" := by decide
example : detect_case_type "Hello world!" = "other" := by decide
example : pyReplace "aaa" "aa" "b" = "ba" := by decide
example : pyReplace "abc" "" "X" = "XaXbXcX" := by decide
example :
    replace_text_in_filename "example-example-file.txt"
      (generate_all_case_variations "example")
      (generate_all_case_variations "sample") = "sample-sample-file.txt" := by decide
example :
    substituteInContent "testString test_string"
      (generate_all_case_variations "testString")
      (generate_all_case_variations "demoExample") = "demoExample demo_example" := by decide

/-!
Character-level facts about ASCII case conversion used throughout.
-/

theorem char_le_iff {a b : Char} : a ≤ b ↔ a.toNat ≤ b.toNat := Iff.rfl

theorem char_eq_iff {a b : Char} : a = b ↔ a.toNat = b.toNat := by
  constructor
  · intro h; rw [h]
  · intro h; exact Char.ext (UInt32.toNat.inj h)

theorem char_toNat_ofNat {n : Nat} (h : n < 55296) : (Char.ofNat n).toNat = n := by
  have hv : n.isValidChar := Or.inl h
  simp [Char.ofNat, hv, Char.ofNatAux, Char.toNat, UInt32.toNat]

theorem charUpperRange {c : Char} : ('A' ≤ c ∧ c ≤ 'Z') ↔ (65 ≤ c.toNat ∧ c.toNat ≤ 90) := Iff.rfl

theorem charLowerRange {c : Char} : ('a' ≤ c ∧ c ≤ 'z') ↔ (97 ≤ c.toNat ∧ c.toNat ≤ 122) := Iff.rfl

theorem toLower_toNat_of_upper {c : Char} (h1 : 65 ≤ c.toNat) (h2 : c.toNat ≤ 90) :
    (Char.toLower c).toNat = c.toNat + 32 := by
  unfold Char.toLower
  rw [if_pos ⟨h1, h2⟩]
  exact char_toNat_ofNat (by omega)

theorem toLower_of_not_upper {c : Char} (h : ¬(65 ≤ c.toNat ∧ c.toNat ≤ 90)) :
    Char.toLower c = c := by
  unfold Char.toLower
  rw [if_neg h]

theorem toUpper_toNat_of_lower {c : Char} (h1 : 97 ≤ c.toNat) (h2 : c.toNat ≤ 122) :
    (Char.toUpper c).toNat = c.toNat - 32 := by
  unfold Char.toUpper
  rw [if_pos ⟨h1, h2⟩]
  exact char_toNat_ofNat (by omega)

theorem toUpper_of_not_lower {c : Char} (h : ¬(97 ≤ c.toNat ∧ c.toNat ≤ 122)) :
    Char.toUpper c = c := by
  unfold Char.toUpper
  rw [if_neg h]

theorem toLower_not_upper (c : Char) : ¬('A' ≤ Char.toLower c ∧ Char.toLower c ≤ 'Z') := by
  rw [charUpperRange]
  by_cases h : 65 ≤ c.toNat ∧ c.toNat ≤ 90
  · rw [toLower_toNat_of_upper h.1 h.2]; omega
  · rw [toLower_of_not_upper h]; omega

theorem toLower_toUpper_of_lower {c : Char} (h : 'a' ≤ c ∧ c ≤ 'z') :
    Char.toLower (Char.toUpper c) = c := by
  rw [charLowerRange] at h
  have hu := toUpper_toNat_of_lower h.1 h.2
  rw [char_eq_iff, toLower_toNat_of_upper (by omega) (by omega), hu]
  omega

theorem toLower_eq_of_target_not_lower {c d : Char} (hd : ¬(97 ≤ d.toNat ∧ d.toNat ≤ 122))
    (h : Char.toLower c = d) : c = d := by
  by_cases hc : 65 ≤ c.toNat ∧ c.toNat ≤ 90
  · exfalso
    have := toLower_toNat_of_upper hc.1 hc.2
    rw [h] at this
    omega
  · rw [← h, toLower_of_not_upper hc]

theorem toUpper_eq_of_target_not_upper {c d : Char} (hd : ¬(65 ≤ d.toNat ∧ d.toNat ≤ 90))
    (h : Char.toUpper c = d) : c = d := by
  by_cases hc : 97 ≤ c.toNat ∧ c.toNat ≤ 122
  · exfalso
    have := toUpper_toNat_of_lower hc.1 hc.2
    rw [h] at this
    omega
  · rw [← h, toUpper_of_not_lower hc]

theorem toUpper_upper_of_lower {c : Char} (h : 'a' ≤ c ∧ c ≤ 'z') :
    'A' ≤ Char.toUpper c ∧ Char.toUpper c ≤ 'Z' := by
  rw [charLowerRange] at h
  rw [charUpperRange, toUpper_toNat_of_lower h.1 h.2]
  omega

/-!
List-level facts about the kebab canonicalisation steps.
-/

theorem replaceChar_not_mem {a b : Char} {l : List Char} (h : a ∉ l) :
    replaceChar a b l = l := by
  unfold replaceChar
  induction l with
  | nil => rfl
  | cons c rest ih =>
    simp only [List.mem_cons, not_or] at h
    simp [if_neg (Ne.symm h.1), ih h.2]

theorem mem_replaceChar {a b c : Char} {l : List Char} (h : c ∈ replaceChar a b l) :
    c ∈ l ∨ c = b := by
  unfold replaceChar at h
  rcases List.mem_map.1 h with ⟨d, hd, hdc⟩
  by_cases hda : d = a
  · right; rw [← hdc, if_pos hda]
  · left; rw [← hdc, if_neg hda]; exact hd

theorem toLowerL_id {l : List Char} (h : ∀ c ∈ l, ¬('A' ≤ c ∧ c ≤ 'Z')) :
    toLowerL l = l := by
  unfold toLowerL
  induction l with
  | nil => rfl
  | cons c rest ih =>
    have hc : ¬(65 ≤ c.toNat ∧ c.toNat ≤ 90) := by
      have := h c (List.mem_cons_self c rest)
      rwa [charUpperRange] at this
    simp [toLower_of_not_upper hc, ih fun d hd => h d (List.mem_cons_of_mem c hd)]

theorem mem_toLowerL_not_upper {c : Char} {l : List Char} (h : c ∈ toLowerL l) :
    ¬('A' ≤ c ∧ c ≤ 'Z') := by
  rcases List.mem_map.1 h with ⟨d, _, hdc⟩
  rw [← hdc]
  exact toLower_not_upper d

theorem mem_of_mem_toLowerL {c : Char} {l : List Char}
    (hc : ¬(97 ≤ c.toNat ∧ c.toNat ≤ 122)) (h : c ∈ toLowerL l) : c ∈ l := by
  rcases List.mem_map.1 h with ⟨d, hd, hdc⟩
  rwa [toLower_eq_of_target_not_lower hc hdc] at hd

theorem insertHyphensAux_append (l1 l2 : List Char) :
    insertHyphensAux (l1 ++ l2) = insertHyphensAux l1 ++ insertHyphensAux l2 := by
  induction l1 with
  | nil => rfl
  | cons c rest ih => simp [insertHyphensAux, ih]

theorem insertHyphensAux_no_upper {l : List Char} (h : ∀ c ∈ l, ¬('A' ≤ c ∧ c ≤ 'Z')) :
    insertHyphensAux l = l := by
  induction l with
  | nil => rfl
  | cons c rest ih =>
    rw [insertHyphensAux, if_neg (h c (List.mem_cons_self c rest)),
      ih fun d hd => h d (List.mem_cons_of_mem c hd)]
    rfl

theorem mem_insertHyphensAux {c : Char} {l : List Char} (h : c ∈ insertHyphensAux l) :
    c ∈ l ∨ c = '-' := by
  induction l with
  | nil => simp [insertHyphensAux] at h
  | cons d rest ih =>
    rw [insertHyphensAux] at h
    rcases List.mem_append.1 h with h1 | h2
    · by_cases hd : 'A' ≤ d ∧ d ≤ 'Z'
      · rw [if_pos hd] at h1
        simp only [List.mem_cons, List.not_mem_nil, or_false] at h1
        rcases h1 with h1 | h1
        · right; exact h1
        · left; simp [h1]
      · rw [if_neg hd] at h1
        simp only [List.mem_cons, List.not_mem_nil, or_false] at h1
        left; simp [h1]
    · rcases ih h2 with h2 | h2
      · left; exact List.mem_cons_of_mem d h2
      · right; exact h2

theorem mem_insertHyphens {c : Char} {l : List Char} (h : c ∈ insertHyphens l) :
    c ∈ l ∨ c = '-' := by
  cases l with
  | nil => simp [insertHyphens] at h
  | cons d rest =>
    rw [insertHyphens] at h
    rcases List.mem_cons.1 h with h1 | h2
    · left; simp [h1]
    · rcases mem_insertHyphensAux h2 with h2 | h2
      · left; exact List.mem_cons_of_mem d h2
      · right; exact h2

/-!
Facts about collapseHyphens: it keeps the head character, only yields
characters of its input, produces no double hyphen, and is the identity
on lists without a double hyphen.
-/

theorem collapseHyphens_cons (a : Char) (l : List Char) :
    ∃ ys, collapseHyphens (a :: l) = a :: ys := by
  induction l generalizing a with
  | nil => exact ⟨[], rfl⟩
  | cons b rest ih =>
    by_cases hab : a = '-' ∧ b = '-'
    · rw [collapseHyphens, if_pos hab]
      rcases ih b with ⟨ys, hy⟩
      exact ⟨ys, by rw [hy, hab.1, hab.2]⟩
    · rw [collapseHyphens, if_neg hab]
      exact ⟨collapseHyphens (b :: rest), rfl⟩

theorem mem_collapseHyphens {c : Char} {l : List Char} (h : c ∈ collapseHyphens l) :
    c ∈ l := by
  induction l using collapseHyphens.induct with
  | case1 => simp [collapseHyphens] at h
  | case2 d => simpa [collapseHyphens] using h
  | case3 a b rest hab ih =>
    rw [collapseHyphens, if_pos hab] at h
    exact List.mem_cons_of_mem a (ih h)
  | case4 a b rest hab ih =>
    rw [collapseHyphens, if_neg hab] at h
    rcases List.mem_cons.1 h with h1 | h2
    · simp [h1]
    · exact List.mem_cons_of_mem a (ih h2)

theorem noDouble_collapseHyphens (l : List Char) : noDouble (collapseHyphens l) = true := by
  induction l using collapseHyphens.induct with
  | case1 => rfl
  | case2 c => rfl
  | case3 a b rest hab ih => rw [collapseHyphens, if_pos hab]; exact ih
  | case4 a b rest hab ih =>
    rw [collapseHyphens, if_neg hab]
    rcases collapseHyphens_cons b rest with ⟨ys, hy⟩
    rw [hy]
    rw [hy] at ih
    rw [noDouble]
    simp only [Bool.and_eq_true, Bool.not_eq_true']
    constructor
    · by_cases ha : a = '-'
      · by_cases hb : b = '-'
        · exact absurd ⟨ha, hb⟩ hab
        · simp [hb]
      · simp [ha]
    · exact ih

theorem collapseHyphens_of_noDouble {l : List Char} (h : noDouble l = true) :
    collapseHyphens l = l := by
  induction l using collapseHyphens.induct with
  | case1 => rfl
  | case2 c => rfl
  | case3 a b rest hab ih =>
    exfalso
    rw [noDouble] at h
    simp only [Bool.and_eq_true, Bool.not_eq_true'] at h
    rw [hab.1, hab.2] at h
    simp at h
  | case4 a b rest hab ih =>
    rw [noDouble] at h
    simp only [Bool.and_eq_true, Bool.not_eq_true'] at h
    rw [collapseHyphens, if_neg hab, ih h.2]

/-!
The substring test occursInL agrees with List.IsInfix, and a list with no
double hyphen has no "--" substring.
-/

theorem occursInL_iff_infix {needle hay : List Char} :
    occursInL needle hay = true ↔ needle <:+: hay := by
  induction hay with
  | nil =>
    simp only [occursInL, List.isEmpty_iff]
    constructor
    · intro h; rw [h]
    · intro h; exact List.eq_nil_of_infix_nil h
  | cons c rest ih =>
    rw [occursInL, Bool.or_eq_true, List.isPrefixOf_iff_prefix, ih, List.infix_cons_iff]

theorem noDouble_tail {c : Char} {l : List Char} (h : noDouble (c :: l) = true) :
    noDouble l = true := by
  cases l with
  | nil => rfl
  | cons b rest =>
    rw [noDouble, Bool.and_eq_true] at h
    exact h.2

theorem not_occurs_double_of_noDouble {l : List Char} (h : noDouble l = true) :
    occursInL ['-', '-'] l = false := by
  induction l with
  | nil => rfl
  | cons c rest ih =>
    rw [occursInL, Bool.or_eq_false_iff]
    constructor
    · cases rest with
      | nil => simp [List.isPrefixOf]
      | cons b rest2 =>
        by_cases hc : c = '-' ∧ b = '-'
        · exfalso
          rw [noDouble, Bool.and_eq_true, Bool.not_eq_true', Bool.and_eq_false_iff] at h
          rcases h.1 with h1 | h1
          · exact absurd hc.1 (by simpa using h1)
          · exact absurd hc.2 (by simpa using h1)
        · rw [Bool.eq_false_iff]
          intro hpre
          rw [List.isPrefixOf_iff_prefix] at hpre
          rcases hpre with ⟨t, ht⟩
          simp only [List.cons_append, List.nil_append, List.cons.injEq] at ht
          exact hc ⟨ht.1.symm, ht.2.1.symm⟩
    · exact ih (noDouble_tail h)

/-!
Facts about List.splitOn as used by the Python str.split model: the split
is never empty, its tokens avoid the separator, token characters come
from the original list, and intercalating the separator recovers the
original list.
-/

theorem splitOn_char_ne_nil (a : Char) (l : List Char) : l.splitOn a ≠ [] :=
  List.splitOnP_ne_nil _ l

theorem not_mem_of_mem_splitOn {a : Char} {l t : List Char} (h : t ∈ l.splitOn a) :
    a ∉ t := by
  induction l generalizing t with
  | nil =>
    rw [List.splitOn_nil] at h
    simp only [List.mem_singleton] at h
    simp [h]
  | cons c rest ih =>
    rw [List.splitOn, List.splitOnP_cons] at h
    by_cases hca : c = a
    · rw [if_pos (by simp [hca])] at h
      rcases List.mem_cons.1 h with h1 | h2
      · simp [h1]
      · exact ih (by rwa [List.splitOn])
    · rw [if_neg (by simp [hca])] at h
      rcases hsp : rest.splitOnP (· == a) with _ | ⟨t0, ts⟩
      · exact absurd hsp (List.splitOnP_ne_nil _ rest)
      · rw [hsp] at h
        simp only [List.modifyHead] at h
        rcases List.mem_cons.1 h with h1 | h2
        · have ht0 : a ∉ t0 := @ih t0 (by rw [List.splitOn, hsp]; exact List.mem_cons_self t0 ts)
          rw [h1]
          intro hmem
          rcases List.mem_cons.1 hmem with h3 | h3
          · exact hca h3.symm
          · exact ht0 h3
        · exact @ih t (by rw [List.splitOn, hsp]; exact List.mem_cons_of_mem t0 h2)

theorem intercalate_token_cons (x : Char) (t : List Char) (ts : List (List Char)) :
    [x].intercalate (t :: ts) = t ++ (ts.map fun u => x :: u).flatten := by
  induction ts generalizing t with
  | nil => simp [List.intercalate]
  | cons u us ih =>
    rw [List.intercalate, List.intersperse_cons_cons, List.flatten_cons, List.flatten_cons]
    have := ih u
    rw [List.intercalate] at this
    rw [List.map_cons, List.flatten_cons, this]
    simp

theorem mem_of_mem_splitOn {a c : Char} {l t : List Char} (ht : t ∈ l.splitOn a)
    (hc : c ∈ t) : c ∈ l := by
  have hrec : [a].intercalate (l.splitOn a) = l := List.intercalate_splitOn l a
  rcases hsp : l.splitOn a with _ | ⟨t0, ts⟩
  · exact absurd hsp (splitOn_char_ne_nil a l)
  · rw [hsp] at hrec ht
    rw [← hrec, intercalate_token_cons]
    rcases List.mem_cons.1 ht with h1 | h2
    · exact List.mem_append_left _ (h1 ▸ hc)
    · refine List.mem_append_right _ ?_
      rw [List.mem_flatten]
      exact ⟨a :: t, List.mem_map_of_mem _ h2, List.mem_cons_of_mem a hc⟩

theorem splitOn_eq_single {a : Char} {l : List Char} (h : a ∉ l) :
    l.splitOn a = [l] := by
  rw [List.splitOn]
  refine List.splitOnP_eq_single _ _ ?_
  intro x hx
  simp only [beq_iff_eq]
  intro hxa
  exact h (hxa ▸ hx)

/-!
Characterisations of the two substitution loops.
-/

theorem replaceFirstMatch_eq_find (ps : List (String × String)) (f : String) :
    replaceFirstMatch ps f =
      match ps.find? (fun p => occursIn p.1 f) with
      | some p => pyReplace f p.1 p.2
      | none => f := by
  induction ps with
  | nil => rfl
  | cons p rest ih =>
    rcases p with ⟨nvar, rvar⟩
    rw [replaceFirstMatch, List.find?]
    by_cases h : occursIn nvar f
    · simp [h]
    · simp only [Bool.not_eq_true] at h
      simp [h, ih]

theorem contentLoop_eq_foldl (content : String) (ps : List (String × String)) (acc : String) :
    contentLoop content ps acc =
      ps.foldl (fun a p => if occursIn p.1 content then pyReplace a p.1 p.2 else a) acc := by
  induction ps generalizing acc with
  | nil => rfl
  | cons p rest ih =>
    rcases p with ⟨nvar, rvar⟩
    rw [contentLoop, List.foldl_cons, ih]

/-!
Claim theorems.
-/

/-- C1: filename substitution is first-match-wins.  replace_text_in_filename
walks the variation pairs in the fixed order original, camelCase,
PascalCase, snake_case, kebab-case; the result is determined by the first
needle variant that is a substring of the filename, whose occurrences are
all replaced by the same key's replacement variant, later keys never being
substituted; and the spec's concrete example holds. -/
theorem C1_filename_first_match_wins :
    (∀ (name : String) (nv rv : CaseVariations),
      replace_text_in_filename name nv rv =
        match (variationPairs nv rv).find? (fun p => occursIn p.1 name) with
        | some p => pyReplace name p.1 p.2
        | none => name) ∧
    replace_text_in_filename "example-example-file.txt"
      (generate_all_case_variations "example")
      (generate_all_case_variations "sample") = "sample-sample-file.txt" :=
  ⟨fun name nv rv => replaceFirstMatch_eq_find (variationPairs nv rv) name, by decide⟩

/-- C2 counterexample: the content loop of replace_in_files tests each
needle variant against the ORIGINAL content, not the possibly
already-modified content as the claim states.  With needle fooBar and
replacement a_foo_bar on content fooBar, the original-replacement step
introduces the snake_case needle variant foo_bar into the modified
content; the claim's algorithm would substitute it again, the code does
not, and the two outputs differ. -/
theorem C2_counterexample_original_content_check :
    substituteInContent "fooBar" (generate_all_case_variations "fooBar")
        (generate_all_case_variations "a_foo_bar") = "a_foo_bar" ∧
    substituteInContentSpec "fooBar" (generate_all_case_variations "fooBar")
        (generate_all_case_variations "a_foo_bar") = "a_a_foo_bar" ∧
    substituteInContent "fooBar" (generate_all_case_variations "fooBar")
        (generate_all_case_variations "a_foo_bar") ≠
      substituteInContentSpec "fooBar" (generate_all_case_variations "fooBar")
        (generate_all_case_variations "a_foo_bar") := by
  refine ⟨by decide, by decide, by decide⟩

/-- C2 amended: content substitution does not short-circuit; it visits
every convention key in the fixed order and, for each key whose needle
variant occurs anywhere in the ORIGINAL content, replaces all occurrences
of that variant in the current (possibly already-modified) content with
the same key's replacement variant and continues; in particular content
containing both testString and test_string with needle testString and
replacement demoExample has both occurrences replaced in one pass. -/
theorem C2_content_substitution_visits_all_keys :
    (∀ (content : String) (nv rv : CaseVariations),
      substituteInContent content nv rv =
        (variationPairs nv rv).foldl
          (fun acc p => if occursIn p.1 content then pyReplace acc p.1 p.2 else acc) content) ∧
    substituteInContent "testString test_string"
      (generate_all_case_variations "testString")
      (generate_all_case_variations "demoExample") = "demoExample demo_example" :=
  ⟨fun content nv rv => contentLoop_eq_foldl content (variationPairs nv rv) content, by decide⟩

/-- C3: both substitution operations fail with the empty-needle error
whenever the needle variation mapping's original entry is the empty
string, for every filename/content and every replacement.  The original
entry of the generated mapping is the needle verbatim, and both
rename_files and replace_in_files raise ValueError on a falsy needle
before substituting. -/
theorem C3_empty_needle_error (name content needle replacement : String)
    (h : (generate_all_case_variations needle).original = "") :
    substituteInName name needle replacement =
      Except.error "The needle must not be empty or only whitespace." ∧
    substituteInContentChecked content needle replacement =
      Except.error "The needle must not be empty or only whitespace." := by
  have hn : needle = "" := h
  rw [substituteInName, substituteInContentChecked, if_pos hn, if_pos hn]
  exact ⟨rfl, rfl⟩

/-- Witness for C3 at the concrete empty needle. -/
theorem C3_empty_needle_error_witness :
    substituteInName "some_file.txt" "" "repl" =
      Except.error "The needle must not be empty or only whitespace." ∧
    substituteInContentChecked "some content" "" "repl" =
      Except.error "The needle must not be empty or only whitespace." :=
  C3_empty_needle_error "some_file.txt" "some content" "" "repl" (by decide)

/-- C5 counterexample: the empty string consists only of lowercase
letters and digits (vacuously) yet classifies as other, not snake_case,
because every pattern requires at least one character. -/
theorem C5_counterexample_empty_string :
    (∀ c ∈ ("" : String).data, isLowerDigit c = true) ∧
    detect_case_type "" ≠ "snake_case" ∧ detect_case_type "" = "other" := by
  refine ⟨by decide, by decide, by decide⟩

/-- C5 amended: the classifier tries snake_case, kebab-case, camelCase,
PascalCase in that fixed order and returns the first match, so every
NONEMPTY string of lowercase letters and digits classifies as snake_case
even though the camelCase pattern matches it too; classify of isJSON is
camelCase and classify of XMLHttpRequest is PascalCase. -/
theorem C5_classifier_priority_order :
    (∀ s : String, s ≠ "" → (∀ c ∈ s.data, isLowerDigit c = true) →
      detect_case_type s = "snake_case") ∧
    detect_case_type "example" = "snake_case" ∧
    detect_case_type "isJSON" = "camelCase" ∧
    detect_case_type "XMLHttpRequest" = "PascalCase" := by
  refine ⟨?_, by decide, by decide, by decide⟩
  intro s hs hall
  have hdata : s.data ≠ [] := by
    intro h
    apply hs
    cases s
    simp only at h
    rw [h]
  have hnus : '_' ∉ s.data := by
    intro hmem
    have h1 := hall '_' hmem
    have h2 : isLowerDigit '_' = false := by decide
    rw [h1] at h2
    cases h2
  have hemp : s.data.isEmpty = false := by
    cases hd : s.data with
    | nil => exact absurd hd hdata
    | cons c cs => rfl
  have hsnake : snakeBody s.data = true := by
    rw [snakeBody, splitOn_eq_single hnus]
    simp [hemp, List.all_eq_true.2 hall]
  rw [detect_case_type, if_pos (by rw [pyMatchFull, hsnake, Bool.true_or])]

/-- Witness for C5 at a concrete lowercase-and-digits string. -/
theorem C5_classifier_priority_order_witness :
    detect_case_type "abc123" = "snake_case" :=
  C5_classifier_priority_order.1 "abc123" (by decide) (by decide)

/-- C6 counterexample: the string of one letter followed by a newline is
not matched in its entirety by any of the four patterns, since a newline
is outside every character class, yet the classifier returns snake_case,
because Python's dollar anchor also matches just before one trailing
newline. -/
theorem C6_counterexample_trailing_newline :
    snakeBody "a\n".data = false ∧ kebabBody "a\n".data = false ∧
    camelBody "a\n".data = false ∧ pascalBody "a\n".data = false ∧
    detect_case_type "a\n" = "snake_case" := by
  refine ⟨by decide, by decide, by decide, by decide, by decide⟩

/-- C6 amended: the classifier returns other exactly for strings where,
for each of the four patterns, Python's anchored match fails, i.e.
neither the whole string nor, when it ends with a newline, the string
without that final newline is matched in its entirety by the pattern. -/
theorem C6_classifier_other (s : String)
    (h1 : pyMatchFull snakeBody s.data = false)
    (h2 : pyMatchFull kebabBody s.data = false)
    (h3 : pyMatchFull camelBody s.data = false)
    (h4 : pyMatchFull pascalBody s.data = false) :
    detect_case_type s = "other" := by
  simp [detect_case_type, h1, h2, h3, h4]

/-- Witness for C6 at a string with a character outside every class. -/
theorem C6_classifier_other_witness :
    detect_case_type "Hello world!" = "other" :=
  C6_classifier_other "Hello world!" (by decide) (by decide) (by decide) (by decide)

/-- C7: the variation mapping has original equal to the input verbatim,
kebab-case equal to the kebab canonical form, camelCase, PascalCase and
snake_case the projections of that kebab form, in the fixed key order
materialised by variationPairs; and the spec's concrete example holds. -/
theorem C7_variations_shape :
    (∀ text : String,
      (generate_all_case_variations text).original = text ∧
      (generate_all_case_variations text).kebabCase = to_kebab_case text ∧
      (generate_all_case_variations text).camelCase = to_camel_case (to_kebab_case text) ∧
      (generate_all_case_variations text).PascalCase = to_pascal_case (to_kebab_case text) ∧
      (generate_all_case_variations text).snake_case = to_snake_case (to_kebab_case text)) ∧
    generate_all_case_variations "this-is-kebab-case" =
      { original := "this-is-kebab-case", camelCase := "thisIsKebabCase",
        PascalCase := "ThisIsKebabCase", snake_case := "this_is_kebab_case",
        kebabCase := "this-is-kebab-case" } :=
  ⟨fun _ => ⟨rfl, rfl, rfl, rfl, rfl⟩, by decide⟩

/-- C8: convert_string raises the unsupported-convention ValueError for
every target tag outside the five recognized ones, and succeeds for each
of the five recognized tags. -/
theorem C8_unsupported_convention (s t : String)
    (h1 : t ≠ "camelCase") (h2 : t ≠ "PascalCase") (h3 : t ≠ "snake_case")
    (h4 : t ≠ "kebab-case") (h5 : t ≠ "other") :
    convert_string s t = Except.error ("Unsupported target case: " ++ t) ∧
    convert_string s "camelCase" = Except.ok (to_camel_case (to_kebab_case s)) ∧
    convert_string s "PascalCase" = Except.ok (to_pascal_case (to_kebab_case s)) ∧
    convert_string s "snake_case" = Except.ok (to_snake_case (to_kebab_case s)) ∧
    convert_string s "kebab-case" = Except.ok (to_kebab_case s) ∧
    convert_string s "other" = Except.ok s := by
  refine ⟨?_, rfl, rfl, rfl, rfl, rfl⟩
  simp [convert_string, h1, h2, h3, h4, h5]

/-- Witness for C8 at the spec's concrete unsupported tag. -/
theorem C8_unsupported_convention_witness :
    convert_string "someText" "unsupportedCase" =
      Except.error ("Unsupported target case: " ++ "unsupportedCase") :=
  (C8_unsupported_convention "someText" "unsupportedCase"
    (by decide) (by decide) (by decide) (by decide) (by decide)).1

/-- C10: if none of the five needle variants occurs as a substring of the
filename, replace_text_in_filename returns the filename unchanged. -/
theorem C10_no_match_identity (name : String) (nv rv : CaseVariations)
    (h1 : occursIn nv.original name = false)
    (h2 : occursIn nv.camelCase name = false)
    (h3 : occursIn nv.PascalCase name = false)
    (h4 : occursIn nv.snake_case name = false)
    (h5 : occursIn nv.kebabCase name = false) :
    replace_text_in_filename name nv rv = name := by
  simp [replace_text_in_filename, variationPairs, replaceFirstMatch, h1, h2, h3, h4, h5]

/-- Witness for C10 at concrete nonmatching variations. -/
theorem C10_no_match_identity_witness :
    replace_text_in_filename "other-file.txt" (generate_all_case_variations "needle")
      (generate_all_case_variations "repl") = "other-file.txt" :=
  C10_no_match_identity "other-file.txt" (generate_all_case_variations "needle")
    (generate_all_case_variations "repl")
    (by decide) (by decide) (by decide) (by decide) (by decide)

/-!
Equality of the source's to_kebab_case with the spec's four-step
description, and the head-preservation facts needed for claim C4.
-/

theorem stepA_eq (l : List Char) :
    replaceChar ' ' '-' (replaceChar '_' '-' l) =
      l.map fun c => if c = '_' ∨ c = ' ' then '-' else c := by
  unfold replaceChar
  rw [List.map_map]
  congr 1
  funext c
  by_cases h1 : c = '_'
  · simp [Function.comp, h1]
  · by_cases h2 : c = ' '
    · simp [Function.comp, h1, h2]
    · simp [Function.comp, h1, h2]

theorem insertHyphensAux_eq_flatMap (l : List Char) :
    insertHyphensAux l = l.flatMap fun d => if 'A' ≤ d ∧ d ≤ 'Z' then ['-', d] else [d] := by
  induction l with
  | nil => rfl
  | cons c rest ih => rw [insertHyphensAux, List.flatMap_cons, ih]

theorem specStepB_eq (l : List Char) : specStepB l = insertHyphens l := by
  cases l with
  | nil => rfl
  | cons c rest => rw [specStepB, insertHyphens, insertHyphensAux_eq_flatMap]

theorem specStepD_eq (l : List Char) : specStepD l = collapseHyphens l := by
  induction l using collapseHyphens.induct with
  | case1 => rw [specStepD, collapseHyphens]
  | case2 c =>
    by_cases hc : c = '-'
    · subst hc
      rw [specStepD, if_pos rfl, List.dropWhile_nil, specStepD, collapseHyphens]
    · rw [specStepD, if_neg hc, specStepD, collapseHyphens]
  | case3 a b rest hab ih =>
    rw [collapseHyphens, if_pos hab, ← ih]
    rcases hab with ⟨ha, hb⟩
    subst ha
    subst hb
    rw [specStepD, if_pos rfl, List.dropWhile_cons, if_pos (by decide)]
    rw [specStepD, if_pos rfl]
  | case4 a b rest hab ih =>
    rw [collapseHyphens, if_neg hab, ← ih]
    by_cases ha : a = '-'
    · have hb : ¬b = '-' := fun hb => hab ⟨ha, hb⟩
      subst ha
      rw [specStepD, if_pos rfl, List.dropWhile_cons, if_neg (by simp [hb])]
    · rw [specStepD, if_neg ha]

theorem replaceChar_cons_ne {a b c : Char} (h : ¬c = a) (l : List Char) :
    replaceChar a b (c :: l) = c :: replaceChar a b l := by
  simp [replaceChar, h]

theorem toLower_hyphen : Char.toLower '-' = '-' :=
  toLower_of_not_upper (by decide)

theorem to_kebab_head_hyphen (rest : List Char) :
    ∃ ys, collapseHyphens (toLowerL (insertHyphens
      (replaceChar ' ' '-' (replaceChar '_' '-' ('-' :: rest))))) = '-' :: ys := by
  rw [replaceChar_cons_ne (by decide), replaceChar_cons_ne (by decide), insertHyphens]
  rw [toLowerL, List.map_cons, toLower_hyphen]
  exact collapseHyphens_cons '-' _

/-- C4: to_kebab_case equals the spec's four-step algorithm of replacing
underscores and spaces with hyphens, inserting a hyphen before every
non-initial uppercase letter, lowercasing, and collapsing hyphen runs;
consequently the output never contains two consecutive hyphens, and a
leading hyphen of the input survives in the output (no trimming). -/
theorem C4_to_kebab_four_steps (s : String) :
    to_kebab_case s = specToKebab s ∧
    occursIn "--" (to_kebab_case s) = false ∧
    (s.data.head? = some '-' → (to_kebab_case s).data.head? = some '-') := by
  refine ⟨?_, ?_, ?_⟩
  · rw [to_kebab_case, specToKebab, stepA_eq, specStepB_eq, specStepD_eq]
  · exact not_occurs_double_of_noDouble (noDouble_collapseHyphens _)
  · intro h
    rcases hd : s.data with _ | ⟨c, rest⟩
    · rw [hd] at h
      cases h
    · rw [hd] at h
      have hc : c = '-' := by
        simp only [List.head?] at h
        exact Option.some.inj h
      subst hc
      show (collapseHyphens (toLowerL (insertHyphens
        (replaceChar ' ' '-' (replaceChar '_' '-' s.data))))).head? = some '-'
      rw [hd]
      rcases to_kebab_head_hyphen rest with ⟨ys, hy⟩
      rw [hy]
      rfl

/-- Witness for C4's leading-hyphen implication at a concrete input. -/
theorem C4_to_kebab_four_steps_witness :
    (to_kebab_case "-Already_kebab").data.head? = some '-' :=
  (C4_to_kebab_four_steps "-Already_kebab").2.2 (by decide)

/-!
Helper lemmas for the kebab-camel-kebab round trip (claim C9).
-/

theorem toLowerL_cons (c : Char) (l : List Char) :
    toLowerL (c :: l) = Char.toLower c :: toLowerL l := rfl

theorem toLowerL_append (l1 l2 : List Char) :
    toLowerL (l1 ++ l2) = toLowerL l1 ++ toLowerL l2 :=
  List.map_append Char.toLower l1 l2

theorem not_mem_replaceChar_self {a b : Char} (hab : ¬a = b) (l : List Char) :
    a ∉ replaceChar a b l := by
  intro hmem
  unfold replaceChar at hmem
  rcases List.mem_map.1 hmem with ⟨d, _, hda⟩
  by_cases hd : d = a
  · rw [if_pos hd] at hda
    exact hab hda.symm
  · rw [if_neg hd] at hda
    exact hd hda

theorem tokenStartsLower_cons {c : Char} {l : List Char} :
    tokenStartsLower (c :: l) = true ↔ ('a' ≤ c ∧ c ≤ 'z') := by
  simp [tokenStartsLower]

theorem kebab_data_no_upper (s : String) :
    ∀ c ∈ (to_kebab_case s).data, ¬('A' ≤ c ∧ c ≤ 'Z') := fun _ hc =>
  mem_toLowerL_not_upper (mem_collapseHyphens hc)

theorem kebab_data_no_underscore (s : String) : '_' ∉ (to_kebab_case s).data := by
  intro hmem
  have h1 := mem_collapseHyphens hmem
  have h2 := mem_of_mem_toLowerL (by decide) h1
  rcases mem_insertHyphens h2 with h3 | h3
  · rcases mem_replaceChar h3 with h4 | h4
    · exact not_mem_replaceChar_self (by decide) s.data h4
    · exact absurd h4 (by decide)
  · exact absurd h3 (by decide)

theorem kebab_data_no_space (s : String) : ' ' ∉ (to_kebab_case s).data := by
  intro hmem
  have h1 := mem_collapseHyphens hmem
  have h2 := mem_of_mem_toLowerL (by decide) h1
  rcases mem_insertHyphens h2 with h3 | h3
  · exact not_mem_replaceChar_self (by decide) _ h3
  · exact absurd h3 (by decide)

theorem kebab_data_noDouble (s : String) : noDouble (to_kebab_case s).data = true :=
  noDouble_collapseHyphens _

theorem capitalizeL_roundtrip {t : List Char}
    (hstart : tokenStartsLower t = true)
    (hupper : ∀ c ∈ t, ¬('A' ≤ c ∧ c ≤ 'Z')) :
    toLowerL (insertHyphensAux (capitalizeL t)) = '-' :: t := by
  cases t with
  | nil => cases hstart
  | cons h tail =>
    have hl : 'a' ≤ h ∧ h ≤ 'z' := tokenStartsLower_cons.1 hstart
    have htail : ∀ c ∈ tail, ¬('A' ≤ c ∧ c ≤ 'Z') :=
      fun c hc => hupper c (List.mem_cons_of_mem h hc)
    have htl : toLowerL tail = tail := toLowerL_id htail
    show toLowerL (insertHyphensAux (Char.toUpper h :: toLowerL tail)) = '-' :: h :: tail
    rw [htl, insertHyphensAux, if_pos (toUpper_upper_of_lower hl),
      insertHyphensAux_no_upper htail]
    show toLowerL ('-' :: Char.toUpper h :: tail) = '-' :: h :: tail
    rw [toLowerL_cons, toLowerL_cons, toLower_hyphen, toLower_toUpper_of_lower hl, htl]

theorem capitalize_flatten_roundtrip {ts : List (List Char)}
    (h : ∀ t ∈ ts, tokenStartsLower t = true ∧ ∀ c ∈ t, ¬('A' ≤ c ∧ c ≤ 'Z')) :
    toLowerL (insertHyphensAux ((ts.map capitalizeL).flatten)) =
      (ts.map fun t => '-' :: t).flatten := by
  induction ts with
  | nil => rfl
  | cons t ts ih =>
    rw [List.map_cons, List.flatten_cons, insertHyphensAux_append, toLowerL_append]
    rw [capitalizeL_roundtrip (h t (List.mem_cons_self t ts)).1 (h t (List.mem_cons_self t ts)).2]
    rw [ih fun u hu => h u (List.mem_cons_of_mem t hu)]
    rw [List.map_cons, List.flatten_cons]

theorem not_mem_capitalizeL {t : List Char} {d : Char}
    (hdu : ¬(65 ≤ d.toNat ∧ d.toNat ≤ 90)) (hdl : ¬(97 ≤ d.toNat ∧ d.toNat ≤ 122))
    (hstart : tokenStartsLower t = true) (hmem : d ∉ t) : d ∉ capitalizeL t := by
  cases t with
  | nil => cases hstart
  | cons h tail =>
    have hl : 'a' ≤ h ∧ h ≤ 'z' := tokenStartsLower_cons.1 hstart
    intro hin
    rcases List.mem_cons.1 hin with h1 | h2
    · have := toUpper_upper_of_lower hl
      rw [charUpperRange, ← h1] at this
      exact hdu this
    · exact hmem (List.mem_cons_of_mem h (mem_of_mem_toLowerL hdl h2))

theorem kebab_camel_roundtrip_list (k : List Char)
    (hu : ∀ c ∈ k, ¬('A' ≤ c ∧ c ≤ 'Z'))
    (hus : '_' ∉ k) (hsp : ' ' ∉ k)
    (hnd : noDouble k = true)
    (htok : ∀ t ∈ k.splitOn '-', tokenStartsLower t = true) :
    (to_kebab_case (to_camel_case (String.mk k))).data = k := by
  rcases hsplit : k.splitOn '-' with _ | ⟨t0, rest⟩
  · exact absurd hsplit (splitOn_char_ne_nil '-' k)
  have htokf : ∀ t ∈ t0 :: rest,
      tokenStartsLower t = true ∧ (∀ c ∈ t, ¬('A' ≤ c ∧ c ≤ 'Z')) ∧ '_' ∉ t ∧ ' ' ∉ t := by
    intro t ht
    rw [← hsplit] at ht
    exact ⟨htok t ht, fun c hc => hu c (mem_of_mem_splitOn ht hc),
      fun hc => hus (mem_of_mem_splitOn ht hc), fun hc => hsp (mem_of_mem_splitOn ht hc)⟩
  rcases ht0 : t0 with _ | ⟨c0, t0tail⟩
  · have := (htokf t0 (List.mem_cons_self t0 rest)).1
    rw [ht0] at this
    cases this
  have ht0f := htokf t0 (List.mem_cons_self t0 rest)
  have hc0 : 'a' ≤ c0 ∧ c0 ≤ 'z' := by
    have := ht0f.1
    rw [ht0] at this
    exact tokenStartsLower_cons.1 this
  have ht0low : toLowerL t0 = t0 := toLowerL_id ht0f.2.1
  have hrestf : ∀ t ∈ rest, tokenStartsLower t = true ∧ ∀ c ∈ t, ¬('A' ≤ c ∧ c ≤ 'Z') :=
    fun t ht => ⟨(htokf t (List.mem_cons_of_mem t0 ht)).1, (htokf t (List.mem_cons_of_mem t0 ht)).2.1⟩
  have hcam : to_camel_case (String.mk k) =
      String.mk (t0 ++ (rest.map capitalizeL).flatten) := by
    rw [to_camel_case]
    rw [show (String.mk k).data = k from rfl, hsplit]
    show String.mk (toLowerL t0 ++ (rest.map capitalizeL).flatten) =
      String.mk (t0 ++ (rest.map capitalizeL).flatten)
    rw [ht0low]
  rw [hcam]
  have hmus : '_' ∉ t0 ++ (rest.map capitalizeL).flatten := by
    intro hmem
    rcases List.mem_append.1 hmem with h1 | h1
    · exact ht0f.2.2.1 h1
    · rcases List.mem_flatten.1 h1 with ⟨u, hu1, hu2⟩
      rcases List.mem_map.1 hu1 with ⟨t, ht1, ht2⟩
      exact not_mem_capitalizeL (by decide) (by decide) (hrestf t ht1).1
        (htokf t (List.mem_cons_of_mem t0 ht1)).2.2.1 (ht2 ▸ hu2)
  have hmsp : ' ' ∉ t0 ++ (rest.map capitalizeL).flatten := by
    intro hmem
    rcases List.mem_append.1 hmem with h1 | h1
    · exact ht0f.2.2.2 h1
    · rcases List.mem_flatten.1 h1 with ⟨u, hu1, hu2⟩
      rcases List.mem_map.1 hu1 with ⟨t, ht1, ht2⟩
      exact not_mem_capitalizeL (by decide) (by decide) (hrestf t ht1).1
        (htokf t (List.mem_cons_of_mem t0 ht1)).2.2.2 (ht2 ▸ hu2)
  show collapseHyphens (toLowerL (insertHyphens (replaceChar ' ' '-' (replaceChar '_' '-'
    (t0 ++ (rest.map capitalizeL).flatten))))) = k
  rw [replaceChar_not_mem hmus, replaceChar_not_mem hmsp]
  rw [ht0, List.cons_append, insertHyphens, insertHyphensAux_append]
  have ht0tail : ∀ c ∈ t0tail, ¬('A' ≤ c ∧ c ≤ 'Z') := by
    intro c hc
    have := ht0f.2.1
    rw [ht0] at this
    exact this c (List.mem_cons_of_mem c0 hc)
  rw [insertHyphensAux_no_upper ht0tail]
  rw [toLowerL_cons, toLowerL_append, toLowerL_id ht0tail]
  rw [capitalize_flatten_roundtrip hrestf]
  have hc0low : Char.toLower c0 = c0 := by
    apply toLower_of_not_upper
    rw [charLowerRange] at hc0
    omega
  rw [hc0low]
  rw [show c0 :: (t0tail ++ (rest.map fun t => '-' :: t).flatten) =
    (c0 :: t0tail) ++ (rest.map fun t => '-' :: t).flatten from rfl]
  rw [← ht0, ← intercalate_token_cons '-' t0 rest, ← hsplit]
  rw [List.intercalate_splitOn]
  exact collapseHyphens_of_noDouble hnd

/-- C9: round-trip consistency through the kebab pivot.  For every string
whose kebab form has only hyphen-separated tokens beginning with a
letter, re-deriving the kebab form from the camelCase projection yields
the same kebab string. -/
theorem C9_kebab_camel_roundtrip (s : String)
    (htok : ∀ t ∈ (to_kebab_case s).data.splitOn '-', tokenStartsLower t = true) :
    to_kebab_case (to_camel_case (to_kebab_case s)) = to_kebab_case s := by
  have h := kebab_camel_roundtrip_list (to_kebab_case s).data
    (kebab_data_no_upper s) (kebab_data_no_underscore s) (kebab_data_no_space s)
    (kebab_data_noDouble s) htok
  exact congrArg String.mk h

/-- Witness for C9 at a concrete camelCase input. -/
theorem C9_kebab_camel_roundtrip_witness :
    to_kebab_case (to_camel_case (to_kebab_case "exampleText")) = to_kebab_case "exampleText" :=
  C9_kebab_camel_roundtrip "exampleText" (by decide)
